import Mathlib

/-!
Shallow embedding of the ProtoForge AI-response pipeline: candidate
extraction, strict JSON decoding, schema validation and project
materialization, translated from lib/core/aiResponse.js and
lib/core/output.js. JavaScript strings are modelled as lists of
characters (`Str`); file-system writes are modelled as lists of
(path segments, content) pairs in the order the code issues them.
-/

/-- JavaScript strings, modelled as lists of characters. -/
abbrev Str := List Char

/-- Shorthand turning a Lean string literal into the character-list model. -/
def lit (x : String) : Str := x.data

/-- The newline character, written `\n` in the JS source templates. -/
def nl : Char := '\n'

/-- The opening-brace character `\x7b`. -/
def obrace : Char := Char.ofNat 123

/-- The closing-brace character `\x7d`. -/
def cbrace : Char := Char.ofNat 125

/-- ASCII whitespace as matched by the JS regex class `\s` and removed by
`String.prototype.trim` (the exotic Unicode space code points are outside
the modelled character range). -/
def isJsWs (c : Char) : Bool :=
  c = ' ' || c = '\t' || c = '\n' || c = '\r' || c = '\x0b' || c = '\x0c'

/-- JS `String.prototype.trim`: strip leading and trailing whitespace. -/
def jsTrim (cs : Str) : Str :=
  ((cs.dropWhile isJsWs).reverse.dropWhile isJsWs).reverse

/-- The backtick character. -/
def tick : Char := '`'

/-- Whether the list starts with three backticks. -/
def isTicks3 : Str → Bool
  | a :: b :: c :: _ => a = tick && b = tick && c = tick
  | _ => false

/-- Whether the list starts with the four letters of the fence tag `json`,
case-insensitively, as matched by the regex fragment `(?:json)?` under
the `i` flag. -/
def startsWithJsonCI : Str → Bool
  | a :: b :: c :: d :: _ =>
      a.toLower = 'j' && b.toLower = 's' && c.toLower = 'o' && d.toLower = 'n'
  | _ => false

/-- Split at the first occurrence of three consecutive backticks: returns
the part strictly before it and the part strictly after it.  This is how
the lazy group `([\s\S]*?)` followed by `\s*` and the closing fence ends
at the first subsequent backtick triple. -/
def splitAtTicks3 : Str → Option (Str × Str)
  | [] => none
  | c :: cs =>
    if isTicks3 (c :: cs) then some ([], cs.drop 2)
    else match splitAtTicks3 cs with
      | some (pre, post) => some (c :: pre, post)
      | none => none

/-- The raw segment captured by the first match of the JS regex
```(?:json)?\s*([\s\S]*?)\s*``` (with the `i` flag), before the
surrounding `\s*` strips are applied: the regex engine takes the leftmost
position where a backtick triple is followed (after an optional `json`
tag) by a later closing triple, and the lazy group stops at the first
such closing triple.  Returns `none` when the regex does not match. -/
def fenceScan : Str → Option Str
  | [] => none
  | c :: cs =>
    if isTicks3 (c :: cs) then
      let rest := cs.drop 2
      let rest2 := if startsWithJsonCI rest then rest.drop 4 else rest
      match splitAtTicks3 rest2 with
      | some (seg, _) => some seg
      | none => fenceScan cs
    else fenceScan cs

/-- First index of a character in a list, JS `String.prototype.indexOf`
(with `none` standing for the sentinel `-1`). -/
def indexOfChar (c : Char) : Str → Option Nat
  | [] => none
  | x :: xs => if x = c then some 0 else (indexOfChar c xs).map (· + 1)

/-- Last index of a character, JS `String.prototype.lastIndexOf`. -/
def lastIndexOfChar (c : Char) (cs : Str) : Option Nat :=
  (indexOfChar c cs.reverse).map (fun i => cs.length - 1 - i)

/-- JS `String.prototype.slice(a, b)` for `0 ≤ a ≤ b`. -/
def sliceStr (cs : Str) (a b : Nat) : Str := (cs.take b).drop a

/-- The brace fallback of `extractJsonCandidate`: trim the text, then take
the inclusive substring from the first opening brace to the last closing
brace when both exist in that order, else return the trimmed text. -/
def braceFallback (text : Str) : Str :=
  let trimmed := jsTrim text
  match indexOfChar obrace trimmed, lastIndexOfChar cbrace trimmed with
  | some s, some e => if s < e then jsTrim (sliceStr trimmed s (e + 1)) else trimmed
  | some _, none => trimmed
  | none, _ => trimmed

/-- lib/core/aiResponse.js `extractJsonCandidate`: prefer the first fenced
code block (the regex group, which the surrounding `\s*` of the regex has
already trimmed, is trimmed once more by the code), falling back to the
first-`\x7b`-to-last-`\x7d` substring, falling back to the trimmed input.
The JS guard `fenced?.[1]` treats an empty captured group as no match. -/
def extractJsonCandidate (text : Str) : Str :=
  match fenceScan text with
  | some seg => if jsTrim seg = [] then braceFallback text else jsTrim (jsTrim seg)
  | none => braceFallback text

/-- A JSON value as produced by `JSON.parse`.  Numbers are modelled by
their source lexeme, which coincides with the JS number-to-string
conversion for the canonical integer literals exercised here. -/
inductive Json where
  | null
  | bool (b : Bool)
  | num (lexeme : Str)
  | str (s : Str)
  | arr (elems : List Json)
  | obj (fields : List (Str × Json))

/-- The four JSON whitespace characters of the `JSON.parse` grammar. -/
def isJsonWs (c : Char) : Bool :=
  c = ' ' || c = '\t' || c = '\n' || c = '\r'

/-- Skip JSON whitespace. -/
def skipJWs (cs : Str) : Str := cs.dropWhile isJsonWs

/-- Hexadecimal digit value. -/
def hexVal (c : Char) : Option Nat :=
  if '0' ≤ c ∧ c ≤ '9' then some (c.toNat - 48)
  else if 'a' ≤ c ∧ c ≤ 'f' then some (c.toNat - 87)
  else if 'A' ≤ c ∧ c ≤ 'F' then some (c.toNat - 55)
  else none

/-- Parse four hex digits of a `\u` escape. -/
def parseHex4 : Str → Option (Nat × Str)
  | a :: b :: c :: d :: rest =>
    match hexVal a, hexVal b, hexVal c, hexVal d with
    | some x, some y, some z, some w => some (((x * 16 + y) * 16 + z) * 16 + w, rest)
    | _, _, _, _ => none
  | _ => none

/-- Body of a JSON string after the opening quote, with escape decoding;
surrogate pairs in `\u` escapes are combined into one code point (a lone
surrogate, which Lean characters cannot carry, decodes to `\x00`). -/
def parseJStrBody (fuel : Nat) (cs : Str) : Option (Str × Str) :=
  match fuel with
  | 0 => none
  | fuel + 1 =>
    match cs with
    | [] => none
    | '"' :: rest => some ([], rest)
    | '\\' :: esc =>
      match esc with
      | '"' :: rest => (parseJStrBody fuel rest).map (fun (s, r) => ('"' :: s, r))
      | '\\' :: rest => (parseJStrBody fuel rest).map (fun (s, r) => ('\\' :: s, r))
      | '/' :: rest => (parseJStrBody fuel rest).map (fun (s, r) => ('/' :: s, r))
      | 'b' :: rest => (parseJStrBody fuel rest).map (fun (s, r) => ('\x08' :: s, r))
      | 'f' :: rest => (parseJStrBody fuel rest).map (fun (s, r) => ('\x0c' :: s, r))
      | 'n' :: rest => (parseJStrBody fuel rest).map (fun (s, r) => ('\n' :: s, r))
      | 'r' :: rest => (parseJStrBody fuel rest).map (fun (s, r) => ('\r' :: s, r))
      | 't' :: rest => (parseJStrBody fuel rest).map (fun (s, r) => ('\t' :: s, r))
      | 'u' :: rest =>
        match parseHex4 rest with
        | none => none
        | some (n, rest2) =>
          if 0xd800 ≤ n ∧ n ≤ 0xdbff then
            match rest2 with
            | '\\' :: 'u' :: rest3 =>
              match parseHex4 rest3 with
              | some (m, rest4) =>
                if 0xdc00 ≤ m ∧ m ≤ 0xdfff then
                  let cp := 0x10000 + (n - 0xd800) * 0x400 + (m - 0xdc00)
                  (parseJStrBody fuel rest4).map (fun (s, r) => (Char.ofNat cp :: s, r))
                else (parseJStrBody fuel rest2).map (fun (s, r) => (Char.ofNat n :: s, r))
              | none => (parseJStrBody fuel rest2).map (fun (s, r) => (Char.ofNat n :: s, r))
            | _ => (parseJStrBody fuel rest2).map (fun (s, r) => (Char.ofNat n :: s, r))
          else (parseJStrBody fuel rest2).map (fun (s, r) => (Char.ofNat n :: s, r))
      | _ => none
    | c :: rest =>
      if c.toNat < 0x20 then none
      else (parseJStrBody fuel rest).map (fun (s, r) => (c :: s, r))

/-- Decimal digits, one or more. -/
def takeDigits1 (cs : Str) : Option (Str × Str) :=
  match cs.span Char.isDigit with
  | (ds, rest) => if ds = [] then none else some (ds, rest)

/-- Parse a JSON number, returning its lexeme: optional minus, integer
part with no leading zero, optional fraction, optional exponent. -/
def parseJNum (cs : Str) : Option (Str × Str) :=
  let (neg, cs1) := match cs with
    | '-' :: rest => (['-'], rest)
    | _ => ([], cs)
  match cs1 with
  | '0' :: rest => some (neg ++ ['0'], rest) |>.map (parseJNumFrac)
  | c :: _ =>
    if c.isDigit then
      match takeDigits1 cs1 with
      | some (ds, rest) => parseJNumFrac (neg ++ ds, rest)
      | none => none
    else none
  | [] => none
where
  parseJNumFrac : Str × Str → Str × Str := fun (lex, rest) =>
    let (lex1, rest1) := match rest with
      | '.' :: r =>
        match takeDigits1 r with
        | some (ds, r2) => (lex ++ '.' :: ds, r2)
        | none => (lex, rest)
      | _ => (lex, rest)
    match rest1 with
    | e :: r =>
      if e = 'e' ∨ e = 'E' then
        let (sgn, r2) := match r with
          | '+' :: rr => (['+'], rr)
          | '-' :: rr => (['-'], rr)
          | _ => (([] : Str), r)
        match takeDigits1 r2 with
        | some (ds, r3) => (lex1 ++ e :: sgn ++ ds, r3)
        | none => (lex1, rest1)
      else (lex1, rest1)
    | [] => (lex1, rest1)

mutual

/-- Parse one JSON value at the current position (whitespace already
skipped), per the `JSON.parse` grammar. -/
def parseJVal (fuel : Nat) (cs : Str) : Option (Json × Str) :=
  match fuel with
  | 0 => none
  | fuel + 1 =>
    match cs with
    | 'n' :: 'u' :: 'l' :: 'l' :: rest => some (.null, rest)
    | 't' :: 'r' :: 'u' :: 'e' :: rest => some (.bool true, rest)
    | 'f' :: 'a' :: 'l' :: 's' :: 'e' :: rest => some (.bool false, rest)
    | '"' :: rest => (parseJStrBody rest.length rest).map (fun (s, r) => (.str s, r))
    | c :: rest =>
      if c = obrace then
        let body := skipJWs rest
        if body.head? = some cbrace then some (.obj [], body.tail)
        else (parseObjItems fuel rest).map (fun (fs, r) => (.obj fs, r))
      else if c = '[' then
        let body := skipJWs rest
        if body.head? = some ']' then some (.arr [], body.tail)
        else (parseArrItems fuel rest).map (fun (xs, r) => (.arr xs, r))
      else
        (parseJNum cs).map (fun (lex, r) => (.num lex, r))
    | [] => none

/-- Parse `element (',' element)* ']'` after an opening bracket, for a
non-empty array. -/
def parseArrItems (fuel : Nat) (cs : Str) : Option (List Json × Str) :=
  match fuel with
  | 0 => none
  | fuel + 1 =>
    match parseJVal fuel (skipJWs cs) with
    | none => none
    | some (v, rest) =>
      match skipJWs rest with
      | ',' :: rest2 => (parseArrItems fuel rest2).map (fun (xs, r) => (v :: xs, r))
      | ']' :: rest2 => some ([v], rest2)
      | _ => none

/-- Parse `member (',' member)* '\x7d'` after an opening brace, for a
non-empty object; a member is `ws string ws ':' element`. -/
def parseObjItems (fuel : Nat) (cs : Str) : Option (List (Str × Json) × Str) :=
  match fuel with
  | 0 => none
  | fuel + 1 =>
    match skipJWs cs with
    | '"' :: rest =>
      match parseJStrBody rest.length rest with
      | none => none
      | some (key, rest1) =>
        match skipJWs rest1 with
        | ':' :: rest2 =>
          match parseJVal fuel (skipJWs rest2) with
          | none => none
          | some (v, rest3) =>
            match skipJWs rest3 with
            | ',' :: rest4 => (parseObjItems fuel rest4).map (fun (fs, r) => ((key, v) :: fs, r))
            | c :: rest4 => if c = cbrace then some ([(key, v)], rest4) else none
            | [] => none
        | _ => none
    | _ => none

end

/-- The `JSON.parse` syntax acceptor and decoder: parse one JSON element
(whitespace, value, whitespace) spanning the whole input, else `none`. -/
def jsonParse (cs : Str) : Option Json :=
  match parseJVal (2 * cs.length + 2) (skipJWs cs) with
  | some (v, rest) => if skipJWs rest = [] then some v else none
  | none => none

/-- Join a list of strings with a separator string. -/
def joinWith (sep : Str) : List Str → Str
  | [] => []
  | [x] => x
  | x :: xs => x ++ sep ++ joinWith sep xs

/-- Whether a JSON number lexeme denotes the value zero: every mantissa
digit is `0` (the exponent cannot make a nonzero mantissa zero). -/
def numLexemeIsZero (lex : Str) : Bool :=
  (lex.takeWhile (fun c => c ≠ 'e' ∧ c ≠ 'E')).all (fun c => ¬ c.isDigit ∨ c = '0')

/-- JS string conversion of a value, as performed by template literals
and `String(...)`: numbers print their lexeme (exact for the canonical
integer literals used here), arrays join their elements with commas
(null elements becoming empty), plain objects print `[object Object]`. -/
def jsToString : Json → Str
  | .null => lit "null"
  | .bool true => lit "true"
  | .bool false => lit "false"
  | .num lex => lex
  | .str s => s
  | .arr xs => elems xs
  | .obj _ => lit "[object Object]"
where
  elems : List Json → Str
    | [] => []
    | [.null] => []
    | [x] => jsToString x
    | .null :: xs => ',' :: elems xs
    | x :: xs => jsToString x ++ ',' :: elems xs

/-- JSON string escaping as used by `JSON.stringify`. -/
def jsonEscapeChar (c : Char) : Str :=
  if c = '"' then ['\\', '"']
  else if c = '\\' then ['\\', '\\']
  else if c = '\n' then ['\\', 'n']
  else if c = '\r' then ['\\', 'r']
  else if c = '\t' then ['\\', 't']
  else if c = '\x08' then ['\\', 'b']
  else if c = '\x0c' then ['\\', 'f']
  else if c.toNat < 0x20 then
    let d1 := c.toNat / 16
    let d2 := c.toNat % 16
    ['\\', 'u', '0', '0',
      (if d1 < 10 then Char.ofNat (48 + d1) else Char.ofNat (87 + d1)),
      (if d2 < 10 then Char.ofNat (48 + d2) else Char.ofNat (87 + d2))]
  else [c]

/-- A quoted, escaped JSON string literal. -/
def jsonQuote (s : Str) : Str :=
  '"' :: (s.flatMap jsonEscapeChar) ++ ['"']

/-- Two spaces of indentation per level, as in `JSON.stringify(v, null, 2)`. -/
def indentOf (d : Nat) : Str := List.replicate (2 * d) ' '

/-- `JSON.stringify(v, null, 2)` at indentation depth `d`: arrays and
objects spread one entry per line with two-space indentation. -/
def jsonStringifyAt : Json → Nat → Str
  | .null, _ => lit "null"
  | .bool true, _ => lit "true"
  | .bool false, _ => lit "false"
  | .num lex, _ => lex
  | .str s, _ => jsonQuote s
  | .arr [], _ => lit "[]"
  | .arr (x :: xs), d =>
      '[' :: nl :: items (x :: xs) (d + 1) ++ nl :: indentOf d ++ [']']
  | .obj [], _ => lit "\x7b\x7d"
  | .obj (f :: fs), d =>
      obrace :: nl :: fields (f :: fs) (d + 1) ++ nl :: indentOf d ++ [cbrace]
where
  items : List Json → Nat → Str
    | [], _ => []
    | [x], d => indentOf d ++ jsonStringifyAt x d
    | x :: xs, d => indentOf d ++ jsonStringifyAt x d ++ ',' :: nl :: items xs d
  fields : List (Str × Json) → Nat → Str
    | [], _ => []
    | [(k, v)], d => indentOf d ++ jsonQuote k ++ ':' :: ' ' :: jsonStringifyAt v d
    | (k, v) :: fs, d =>
        indentOf d ++ jsonQuote k ++ ':' :: ' ' :: jsonStringifyAt v d ++ ',' :: nl :: fields fs d

/-- `JSON.stringify(v, null, 2)` as used for `prototype.json`. -/
def jsonStringify (v : Json) : Str := jsonStringifyAt v 0

/-- Property lookup on an object literal: JS keeps the last of duplicate
keys, so the last binding wins.  Access on a non-object (or a missing
key) yields `none`, standing for `undefined`. -/
def lookupField : List (Str × Json) → Str → Option Json
  | [], _ => none
  | (k, v) :: rest, key =>
    match lookupField rest key with
    | some w => some w
    | none => if k = key then some v else none

/-- JS property access `value.key` with `none` as `undefined`. -/
def jget (j : Json) (key : String) : Option Json :=
  match j with
  | .obj fields => lookupField fields key.data
  | _ => none

/-- Optional chaining `value?.key`. -/
def jgetChain (a : Option Json) (key : String) : Option Json :=
  a.bind (fun v => jget v key)

/-- JS truthiness of a value. -/
def jsTruthy : Json → Bool
  | .null => false
  | .bool b => b
  | .num lex => ¬ numLexemeIsZero lex
  | .str s => s ≠ []
  | .arr _ => true
  | .obj _ => true

/-- JS truthiness with `undefined` (`none`) falsy. -/
def truthyOpt : Option Json → Bool
  | none => false
  | some v => jsTruthy v

/-- JS `a || b` on possibly-undefined values. -/
def jsOr (a b : Option Json) : Option Json := if truthyOpt a then a else b

/-- Whether a possibly-undefined value is `null` or `undefined`. -/
def isNullish : Option Json → Bool
  | none => true
  | some .null => true
  | some _ => false

/-- JS `a ?? b` on a possibly-undefined left operand. -/
def jsNullishOr (a : Option Json) (b : Json) : Json :=
  match a with
  | some .null => b
  | some v => v
  | none => b

/-- String conversion of a possibly-undefined value, as in a template
literal: `undefined` prints as the word undefined. -/
def jsToStrOpt (a : Option Json) : Str :=
  match a with
  | none => lit "undefined"
  | some v => jsToString v

/-- The elements of a value when it is an array, else the empty list:
this folds JS `Array.isArray` guards (and trailing `|| []` defaults)
over the places the source iterates only over genuine arrays. -/
def toArr (a : Option Json) : List Json :=
  match a with
  | some (.arr xs) => xs
  | _ => []

/-- Split a path string on the slash separator (Node treats the result
segments; an empty string splits to one empty segment). -/
def splitSlash : Str → List Str
  | [] => [[]]
  | c :: rest =>
    if c = '/' then [] :: splitSlash rest
    else match splitSlash rest with
      | s :: ss => (c :: s) :: ss
      | [] => [[c]]

/-- One step of Node path normalization over a segment stack: empty and
dot segments vanish, a dot-dot segment pops the previous segment (and is
kept when there is nothing left to pop, as for relative paths). -/
def normStep (acc : List Str) (seg : Str) : List Str :=
  if seg = [] ∨ seg = lit "." then acc
  else if seg = lit ".." then
    match acc.getLast? with
    | some last => if last = lit ".." then acc ++ [seg] else acc.dropLast
    | none => [seg]
  else acc ++ [seg]

/-- Node path normalization of a segment sequence. -/
def normSegs (segs : List Str) : List Str := segs.foldl normStep []

/-- Render normalized segments back to a path string (`.` for the empty
path, as Node does). -/
def renderPath (segs : List Str) : Str :=
  if segs = [] then lit "." else joinWith ['/'] segs

/-- Node `path.join(a, b)` for relative POSIX paths: concatenate and
normalize. -/
def pathJoin2 (a b : Str) : Str :=
  renderPath (normSegs (splitSlash a ++ splitSlash b))

/-- Whether a value is a JSON string. -/
def isStrJ : Json → Bool
  | .str _ => true
  | _ => false

/-- Whether a value is a plain object (zod `z.object` and `z.record`
accept exactly these). -/
def isObjJ : Json → Bool
  | .obj _ => true
  | _ => false

/-- Whether a value is an array. -/
def isArrJ : Json → Bool
  | .arr _ => true
  | _ => false

/-- Whether a value is a number or a string, for the zod union
`z.union([z.number(), z.string()])`. -/
def isNumOrStrJ : Json → Bool
  | .num _ => true
  | .str _ => true
  | _ => false

/-- An optional field: absent passes, present must satisfy the check
(zod `.optional()` accepts only `undefined`, not `null`). -/
def optField (j : Json) (k : String) (check : Json → Bool) : Bool :=
  match jget j k with
  | none => true
  | some v => check v

/-- An array all of whose elements satisfy a check. -/
def isArrOf (check : Json → Bool) : Json → Bool
  | .arr xs => xs.all check
  | _ => false

/-- The zod `CodeSnippetSchema`: a passthrough object with eight optional
string fields. -/
def checkSnippet (v : Json) : Bool :=
  isObjJ v && optField v "fileName" isStrJ && optField v "filename" isStrJ &&
  optField v "name" isStrJ && optField v "path" isStrJ &&
  optField v "language" isStrJ && optField v "extension" isStrJ &&
  optField v "code" isStrJ && optField v "content" isStrJ

/-- The zod `BomItemSchema`. -/
def checkBomItem (v : Json) : Bool :=
  isObjJ v && optField v "partNumber" isStrJ && optField v "name" isStrJ &&
  optField v "description" isStrJ && optField v "quantity" isNumOrStrJ &&
  optField v "unitPrice" isNumOrStrJ && optField v "link" isStrJ

/-- The zod `TechStackSchema`. -/
def checkTechStack (v : Json) : Bool :=
  isObjJ v && optField v "hardware" (isArrOf isStrJ) &&
  optField v "software" (isArrOf isStrJ) &&
  optField v "protocols" (isArrOf isStrJ) &&
  optField v "tools" (isArrOf isStrJ) &&
  optField v "hw" (isArrOf isStrJ) &&
  optField v "softwareStack" (isArrOf isStrJ)

/-- The `overview` member schema. -/
def checkOverview (v : Json) : Bool :=
  isObjJ v && optField v "projectName" isStrJ && optField v "description" isStrJ &&
  optField v "category" isStrJ && optField v "difficulty" isStrJ &&
  optField v "estimatedTime" isStrJ

/-- The `schematic` union: a string, or a passthrough object with
optional string fields mermaid and diagram. -/
def checkSchematic (v : Json) : Bool :=
  isStrJ v || (isObjJ v && optField v "mermaid" isStrJ && optField v "diagram" isStrJ)

/-- The `bom`/`billOfMaterials` union: an item array, or a passthrough
object with an optional components item array. -/
def checkBomField (v : Json) : Bool :=
  isArrOf checkBomItem v || (isObjJ v && optField v "components" (isArrOf checkBomItem))

/-- The `buildGuide` union: string, string array, or any record. -/
def checkBuildGuide (v : Json) : Bool :=
  isStrJ v || isArrOf isStrJ v || isObjJ v

/-- The zod `PrototypeSchema.safeParse` success condition: a passthrough
object whose recognized members, when present, have the expected shapes.
The schema performs no transforms, so on success the validated value is
the parsed value itself. -/
def checkPrototype (j : Json) : Bool :=
  isObjJ j && optField j "overview" checkOverview &&
  optField j "techStack" checkTechStack &&
  optField j "codeSnippets" (isArrOf checkSnippet) &&
  optField j "files" (isArrOf checkSnippet) &&
  optField j "schematic" checkSchematic &&
  optField j "diagram" (fun v => isObjJ v && optField v "mermaid" isStrJ) &&
  optField j "bom" checkBomField &&
  optField j "billOfMaterials" checkBomField &&
  optField j "buildGuide" checkBuildGuide &&
  optField j "issuesAndFixes" (isArrOf isObjJ) &&
  optField j "nextSteps" (isArrOf isStrJ) &&
  optField j "guides" (isArrOf isObjJ)

/-- Tokenize a key for numeric collation, as in
`localeCompare(b, undefined, numeric true)` on the ASCII keys used for
build-guide steps: maximal digit runs become a `0` marker followed by
the run's numeric value, every other character becomes a `1` marker
followed by its shifted code, so that lexicographic comparison of the
token streams compares digit runs by value and digits before letters. -/
def natKeyGo : List Char → Option Nat → List Nat
  | [], none => []
  | [], some n => [0, n]
  | c :: rest, acc =>
    if c.isDigit then natKeyGo rest (some ((acc.getD 0) * 10 + (c.toNat - 48)))
    else
      (match acc with
       | none => []
       | some n => [0, n]) ++ 1 :: (c.toNat + 2) :: natKeyGo rest none

/-- The collation key of a build-guide step name. -/
def natKey (s : Str) : List Nat := natKeyGo s none

/-- Lexicographic comparison of collation keys. -/
def lexCmp : List Nat → List Nat → Ordering
  | [], [] => .eq
  | [], _ :: _ => .lt
  | _ :: _, [] => .gt
  | a :: as, b :: bs =>
    if a < b then .lt else if b < a then .gt else lexCmp as bs

theorem lexCmp_swap : ∀ a b : List Nat, lexCmp a b = (lexCmp b a).swap := by
  intro a
  induction a with
  | nil => intro b; cases b <;> simp [lexCmp, Ordering.swap]
  | cons x xs ih =>
    intro b
    cases b with
    | nil => simp [lexCmp, Ordering.swap]
    | cons y ys =>
      simp only [lexCmp]
      by_cases h1 : x < y
      · have h2 : ¬ y < x := by omega
        simp [h1, h2, Ordering.swap]
      · by_cases h2 : y < x
        · simp [h1, h2, Ordering.swap]
        · simp [h1, h2, ih ys]

theorem lexCmp_le_trans :
    ∀ a b c : List Nat, lexCmp a b ≠ .gt → lexCmp b c ≠ .gt → lexCmp a c ≠ .gt := by
  intro a
  induction a with
  | nil =>
    intro b c _ _
    cases c <;> simp [lexCmp]
  | cons x xs ih =>
    intro b c h1 h2
    cases b with
    | nil => exact absurd rfl h1
    | cons y ys =>
      cases c with
      | nil => exact absurd rfl h2
      | cons z zs =>
        simp only [lexCmp] at h1 h2 ⊢
        by_cases hxy : x < y
        · by_cases hxz : x < z
          · simp [hxz]
          · by_cases hyz : y < z
            · omega
            · by_cases hzy : z < y
              · simp [hyz, hzy] at h2
              · omega
        · by_cases hyx : y < x
          · simp [hxy, hyx] at h1
          · by_cases hyz : y < z
            · have hxz : x < z := by omega
              simp [hxz]
            · by_cases hzy : z < y
              · simp [hyz, hzy] at h2
              · have hxz : ¬ x < z := by omega
                have hzx : ¬ z < x := by omega
                simp only [hxz, hzx, if_false]
                exact ih ys zs (by simpa [hxy, hyx] using h1) (by simpa [hyz, hzy] using h2)

/-- The comparator used to sort build-guide entries:
`a.localeCompare(b, undefined, numeric true)` yields a non-positive
result, modelled on the collation keys. -/
def bgLe (a b : Str × Json) : Prop :=
  lexCmp (natKey a.1) (natKey b.1) ≠ Ordering.gt

instance : DecidableRel bgLe := fun a b => by unfold bgLe; infer_instance

instance : IsTotal (Str × Json) bgLe :=
  ⟨by
    intro a b
    by_cases h : lexCmp (natKey a.1) (natKey b.1) = Ordering.gt
    · right
      unfold bgLe
      rw [lexCmp_swap, h]
      simp [Ordering.swap]
    · left
      exact h⟩

instance : IsTrans (Str × Json) bgLe :=
  ⟨fun _ _ _ h1 h2 => lexCmp_le_trans _ _ _ h1 h2⟩

/-- The sort that `formatBuildGuide` applies to `Object.entries` of a
step mapping.  JS `Array.prototype.sort` is stable and the entry order
of a plain object is its construction order, so a stable insertion sort
over the modelled entry list is the faithful translation. -/
def sortGuideEntries (l : List (Str × Json)) : List (Str × Json) :=
  List.insertionSort bgLe l

/-- lib/core/output.js `formatBuildGuide`: a string passes through, an
array is rendered as a numbered list, an object is rendered as sorted
step sections, anything else becomes the empty string. -/
def formatBuildGuide : Json → Str
  | .str t => t
  | .arr xs =>
      joinWith [nl]
        (xs.enum.map (fun p => (Nat.repr (p.1 + 1)).data ++ lit ". " ++ jsToString p.2))
  | .obj kvs =>
      joinWith [nl, nl]
        ((sortGuideEntries kvs).map (fun p => lit "## " ++ p.1 ++ nl :: jsToString p.2))
  | _ => []

/-- JS `a || d` rendered into a string by a template literal, where `d`
is already a string. -/
def jsOrStrD (a : Option Json) (d : Str) : Str :=
  if truthyOpt a then jsToStrOpt a else d

/-- JS `a || d` for an object default. -/
def jsOrElse (a : Option Json) (d : Json) : Json :=
  match a with
  | some v => if jsTruthy v then v else d
  | none => d

/-- lib/core/output.js `formatTechStack`: resolve the synonym buckets,
emit one section per non-empty array bucket, fall back to a
placeholder. -/
def formatTechStack (techStack : Json) : Str :=
  let hw := toArr (jsOr (jget techStack "hardware") (jget techStack "hw"))
  let sw := toArr (jsOr (jget techStack "software") (jget techStack "softwareStack"))
  let protocols := toArr (jget techStack "protocols")
  let tools := toArr (jget techStack "tools")
  let bucket := fun (label : Str) (xs : List Json) =>
    if xs.isEmpty then ([] : List Str)
    else [label ++ joinWith [nl] (xs.map (fun x => lit "- " ++ jsToString x))]
  let lines :=
    bucket (lit "### Hardware\n") hw ++ bucket (lit "### Software\n") sw ++
    bucket (lit "### Protocols\n") protocols ++ bucket (lit "### Tools\n") tools
  if lines.isEmpty then lit "_Not specified_" else joinWith [nl, nl] lines

/-- lib/core/output.js `format3D`. -/
def format3D (threeD : Json) : Str :=
  match threeD with
  | .str t => t
  | v =>
    let enclosure :=
      if truthyOpt (jget v "enclosure") then
        lit "## Enclosure\n" ++ jsToStrOpt (jget v "enclosure") ++ [nl]
      else []
    let mounting :=
      if truthyOpt (jget v "mounting") then
        lit "## Mounting\n" ++ jsToStrOpt (jget v "mounting") ++ [nl]
      else []
    jsTrim (enclosure ++ [nl] ++ mounting)

/-- A character kept by the guide-title slug (lower-case letter or
digit); every maximal run of other characters becomes one hyphen. -/
def isSlugKeep (c : Char) : Bool :=
  ('a' ≤ c ∧ c ≤ 'z') ∨ ('0' ≤ c ∧ c ≤ '9')

/-- Collapse runs of hyphens to a single hyphen. -/
def collapseDash : Str → Str
  | [] => []
  | [c] => [c]
  | a :: b :: rest =>
    if a = '-' ∧ b = '-' then collapseDash (b :: rest)
    else a :: collapseDash (b :: rest)

/-- Strip one leading and one trailing hyphen, as the regex
`(^-|-$)` with the global flag does. -/
def stripEdgeDash (cs : Str) : Str :=
  let cs1 := match cs with
    | '-' :: r => r
    | _ => cs
  match cs1.getLast? with
  | some c => if c = '-' then cs1.dropLast else cs1
  | none => cs1

/-- The guide-title slug: lower-case, non-alphanumeric runs collapsed to
single hyphens, edge hyphens stripped. -/
def slugify (title : Str) : Str :=
  stripEdgeDash (collapseDash
    ((title.map Char.toLower).map (fun c => if isSlugKeep c then c else '-')))

/-- One entry of the list returned by `writeCodeSnippets`: the manifest
name and language, the normalized path of the written file (as segment
list) and the written content. -/
structure SnippetFile where
  name : Str
  path : List Str
  content : Str
  language : Str
deriving DecidableEq

/-- The snippet list `parsed.codeSnippets || parsed.files || []`. -/
def snippetList (parsed : Json) : List Json :=
  toArr (jsOr (jget parsed "codeSnippets") (jget parsed "files"))

/-- The resolved snippet name `snippet.fileName || snippet.filename ||
snippet.name`. -/
def snippetRawName (sn : Json) : Option Json :=
  jsOr (jget sn "fileName") (jsOr (jget sn "filename") (jget sn "name"))

/-- The resolved snippet content `snippet.code || snippet.content`. -/
def snippetCode (sn : Json) : Option Json :=
  jsOr (jget sn "code") (jget sn "content")

/-- The resolved snippet language
`snippet.language || snippet.extension || 'txt'`. -/
def snippetLang (sn : Json) : Str :=
  jsToStrOpt (jsOr (jget sn "language")
    (jsOr (jget sn "extension") (some (.str (lit "txt")))))

/-- The guard `if (!rawName || !code) continue` of `writeCodeSnippets`:
a snippet is written exactly when both resolve to truthy values. -/
def snippetKeep (sn : Json) : Bool :=
  truthyOpt (snippetRawName sn) && truthyOpt (snippetCode sn)

/-- The file produced for one kept snippet: a bare name is placed under
code/, a name holding a separator is used as the relative path; the
write goes to `path.join(projectDir, fileName)`. -/
def mkSnippetFile (dir : List Str) (sn : Json) : SnippetFile :=
  let rawName := jsToStrOpt (snippetRawName sn)
  let fileName := if rawName.contains '/' then rawName else pathJoin2 (lit "code") rawName
  { name := fileName
    path := normSegs (dir ++ splitSlash fileName)
    content := jsToStrOpt (snippetCode sn)
    language := snippetLang sn }

/-- The loop body of `writeCodeSnippets` over a snippet list. -/
def writeSnippetsGo (dir : List Str) : List Json → List SnippetFile
  | [] => []
  | sn :: rest =>
    if snippetKeep sn then mkSnippetFile dir sn :: writeSnippetsGo dir rest
    else writeSnippetsGo dir rest

/-- lib/core/output.js `writeCodeSnippets`. -/
def writeCodeSnippets (dir : List Str) (parsed : Json) : List SnippetFile :=
  writeSnippetsGo dir (snippetList parsed)

/-- A file-system write: normalized path segments below the current
directory, and content. -/
abbrev FileWrite := List Str × Str

/-- One issues-and-fixes section of docs/issues-and-fixes.md. -/
def issueSection (p : Nat × Json) : Str :=
  let i := p.2
  lit "## " ++ (Nat.repr (p.1 + 1)).data ++ lit ". " ++
    jsOrStrD (jsOr (jget i "problem") (jget i "issue")) (lit "Issue") ++
    lit "\n\n**Solution**\n" ++ jsOrStrD (jget i "solution") (lit "—") ++
    lit "\n\n**Prevention**\n" ++ jsOrStrD (jget i "prevention") (lit "—") ++ [nl]

/-- The write produced for one extra guide entry. -/
def guideWrite (dir : List Str) (g : Json) : FileWrite :=
  let title := jsTrim (jsToStrOpt (jsOr (jget g "title") (some (.str (lit "guide")))))
  let safe := slugify title
  let fileStem := if safe.isEmpty then lit "guide" else safe
  (dir ++ [lit "docs", fileStem ++ lit ".md"],
    lit "# " ++ title ++ lit "\n\n" ++ jsOrStrD (jget g "content") [])

/-- lib/core/output.js `writeDocumentation`: the root README, the
overview and tech-stack pages, and the conditional build-guide,
issues-and-fixes, 3d-description and extra guide pages, in the order the
code writes them. -/
def writeDocumentation (dir : List Str) (parsed : Json) (originalDescription : Str) :
    List FileWrite :=
  let overview := jsOrElse (jget parsed "overview") (.obj [])
  let techStack := jsOrElse (jget parsed "techStack") (.obj [])
  let projectName := jsOrStrD (jget overview "projectName") (lit "ProtoForge Project")
  let description := jsOrStrD (jget overview "description") originalDescription
  let readme :=
    lit "# " ++ projectName ++ lit "\n\n" ++
    lit "## Overview\n" ++ description ++ lit "\n\n" ++
    lit "## Category\n" ++ jsOrStrD (jget overview "category") (lit "N/A") ++ lit "\n\n" ++
    lit "## Difficulty\n" ++ jsOrStrD (jget overview "difficulty") (lit "N/A") ++ lit "\n\n" ++
    lit "## Estimated Time\n" ++ jsOrStrD (jget overview "estimatedTime") (lit "N/A") ++ lit "\n\n" ++
    lit "## Tech Stack\n\n" ++ formatTechStack techStack ++ lit "\n\n" ++
    lit "## Output Layout\n\n" ++
    lit "- code/ (source code)\n- schematics/ (Mermaid diagrams, wiring notes)\n" ++
    lit "- docs/ (build guide, issues, overview)\n- bom.csv (bill of materials)\n" ++
    lit "- report.md (single-file summary)\n- prototype.json (raw AI output)\n"
  [(dir ++ [lit "README.md"], readme),
   (dir ++ [lit "docs", lit "overview.md"],
     lit "# " ++ projectName ++ lit "\n\n" ++ description ++ [nl]),
   (dir ++ [lit "docs", lit "tech-stack.md"],
     lit "# Tech Stack\n\n" ++ formatTechStack techStack ++ [nl])] ++
  (match jget parsed "buildGuide" with
   | some bg =>
     if jsTruthy bg then
       [(dir ++ [lit "docs", lit "build-guide.md"],
         lit "# Build Guide\n\n" ++ formatBuildGuide bg ++ [nl])]
     else []
   | none => []) ++
  (match jget parsed "issuesAndFixes" with
   | some (.arr (i :: is)) =>
     [(dir ++ [lit "docs", lit "issues-and-fixes.md"],
       lit "# Issues & Fixes\n\n" ++
         joinWith [nl] (((i :: is).enum).map issueSection) ++ [nl])]
   | _ => []) ++
  (match jget parsed "threeDDescription" with
   | some td =>
     if jsTruthy td then
       [(dir ++ [lit "schematics", lit "3d-description.md"],
         lit "# 3D / Enclosure Notes\n\n" ++ format3D td ++ [nl])]
     else []
   | none => []) ++
  (match jget parsed "guides" with
   | some (.arr gs) => gs.map (guideWrite dir)
   | _ => [])

/-- lib/core/output.js `generateDiagrams`: resolve the Mermaid source
from the schematic synonyms and write it to both consumer paths when
truthy. -/
def generateDiagrams (dir : List Str) (parsed : Json) : List FileWrite :=
  let schematic := jget parsed "schematic"
  let mermaid : Option Json :=
    match schematic with
    | some (.str s) => some (.str s)
    | _ =>
      jsOr (jgetChain schematic "mermaid")
        (jsOr (jgetChain schematic "diagram") (jgetChain (jget parsed "diagram") "mermaid"))
  if truthyOpt mermaid then
    [(dir ++ [lit "schematics", lit "diagram.mmd"], jsTrim (jsToStrOpt mermaid) ++ [nl]),
     (dir ++ [lit "docs", lit "architecture.mmd"], jsTrim (jsToStrOpt mermaid) ++ [nl])]
  else []

/-- lib/core/output.js `csvEscape`: RFC4180-style escaping, applied to
the stringified field. -/
def csvEscape (s : Str) : Str :=
  if s.contains ',' || s.contains '"' || s.contains nl then
    '"' :: (s.flatMap (fun c => if c = '"' then ['"', '"'] else [c])) ++ ['"']
  else s

/-- The resolved bill-of-materials line items:
`parsed.bom || parsed.billOfMaterials`, flattened through the
`components` wrapper, with every non-array outcome treated by the
`Array.isArray` guard as an empty item list. -/
def resolvedBomItems (parsed : Json) : List Json :=
  let bomv := jsOr (jget parsed "bom") (jget parsed "billOfMaterials")
  match bomv with
  | some (.arr xs) => xs
  | _ => toArr (jgetChain bomv "components")

/-- The five escaped CSV fields of one line item. -/
def bomRowFields (i : Json) : List Str :=
  [csvEscape (jsToString (jsOrElse (jget i "partNumber") (.str []))),
   csvEscape (jsToString (jsOrElse (jget i "description") (jsOrElse (jget i "name") (.str [])))),
   csvEscape (jsToString (jsNullishOr (jget i "quantity") (.num (lit "1")))),
   csvEscape (jsToString (jsNullishOr (jget i "unitPrice") (.str []))),
   csvEscape (jsToString (jsOrElse (jget i "link") (.str [])))]

/-- One data row of bom.csv. -/
def bomRow (i : Json) : Str := joinWith [','] (bomRowFields i)

/-- The bom.csv header row. -/
def bomHeader : Str := lit "partNumber,description,quantity,unitPrice,link"

/-- The full content of bom.csv for a resolved item list. -/
def bomCsvContent (items : List Json) : Str :=
  joinWith [nl] (bomHeader :: items.map bomRow) ++ [nl]

/-- One row of the docs/bom.md table. -/
def bomMdRow (p : Nat × Json) : Str :=
  let i := p.2
  lit "| " ++ (Nat.repr (p.1 + 1)).data ++ lit " | " ++
    jsOrStrD (jget i "partNumber") [] ++ lit " | " ++
    jsOrStrD (jget i "description") (jsOrStrD (jget i "name") []) ++ lit " | " ++
    jsToString (jsNullishOr (jget i "quantity") (.num (lit "1"))) ++ lit " | " ++
    jsToString (jsNullishOr (jget i "unitPrice") (.str [])) ++ lit " | " ++
    (if truthyOpt (jget i "link") then
      lit "[link](" ++ jsToStrOpt (jget i "link") ++ lit ")"
     else []) ++ lit " |"

/-- The full content of docs/bom.md for a resolved item list. -/
def bomMdContent (items : List Json) : Str :=
  lit "# Bill of Materials\n\n" ++
  lit "| # | Part Number | Description | Qty | Unit Price | Link |\n" ++
  lit "|---:|------------|-------------|---:|-----------:|------|\n" ++
  joinWith [nl] (items.enum.map bomMdRow) ++ [nl]

/-- lib/core/output.js `generateBOM`: write bom.csv and docs/bom.md when
at least one line item resolves, else write nothing and return. -/
def generateBOM (dir : List Str) (parsed : Json) : List FileWrite :=
  let items := resolvedBomItems parsed
  if items.isEmpty then []
  else
    [(dir ++ [lit "bom.csv"], bomCsvContent items),
     (dir ++ [lit "docs", lit "bom.md"], bomMdContent items)]

/-- lib/core/output.js `writeReport`. -/
def writeReport (dir : List Str) (parsed : Json) (originalDescription : Str) :
    List FileWrite :=
  let overview := jsOrElse (jget parsed "overview") (.obj [])
  let name := jsOrStrD (jget overview "projectName") (lit "ProtoForge Project")
  let desc := jsOrStrD (jget overview "description") originalDescription
  let nextSteps :=
    match jget parsed "nextSteps" with
    | some (.arr xs) => joinWith [nl] (xs.map (fun x => lit "- " ++ jsToString x))
    | _ => []
  let issues :=
    match jget parsed "issuesAndFixes" with
    | some (.arr xs) =>
      joinWith [nl] (xs.map (fun i =>
        lit "- " ++ jsToStrOpt (jsOr (jget i "problem") (jget i "issue")) ++
        lit ": " ++ jsOrStrD (jget i "solution") []))
    | _ => []
  let report :=
    lit "# " ++ name ++ lit "\n\n" ++
    lit "## Summary\n" ++ desc ++ lit "\n\n" ++
    lit "## Tech Stack\n" ++ formatTechStack (jsOrElse (jget parsed "techStack") (.obj [])) ++ lit "\n\n" ++
    lit "## Files\n- prototype.json\n- bom.csv\n- schematics/diagram.mmd\n- docs/*\n- code/*\n\n" ++
    (if issues.isEmpty then [] else lit "## Issues & Fixes\n" ++ issues ++ lit "\n\n") ++
    (if nextSteps.isEmpty then [] else lit "## Next Steps\n" ++ nextSteps ++ lit "\n\n")
  [(dir ++ [lit "report.md"], report)]

/-- All writes the materializer performs for a validated spec, in
program order: code snippets, documentation, diagrams, bill of
materials, report. -/
def materializeSpec (dir : List Str) (parsed : Json) (originalDescription : Str) :
    List FileWrite :=
  (writeCodeSnippets dir parsed).map (fun f => (f.path, f.content)) ++
  writeDocumentation dir parsed originalDescription ++
  generateDiagrams dir parsed ++
  generateBOM dir parsed ++
  writeReport dir parsed originalDescription

/-- JS `String.prototype.slice(-n)`: the last `n` characters (the whole
string when shorter). -/
def takeLast (n : Nat) (cs : Str) : Str := cs.drop (cs.length - n)

/-- Modelled from the spec: the decoder's underlying message (the
engine-specific `SyntaxError` text of `JSON.parse`, external to the
repository); no claim constrains its content. -/
def underlyingParseMsg (_candidate : Str) : Str :=
  lit "Unexpected token in JSON"

/-- The message built by `parseJsonOrThrow` on failure: the fixed
heading, the underlying decoder message, and the first and last 800
characters of the candidate. -/
def parseErrorMessage (candidate : Str) : Str :=
  lit "Failed to parse JSON from AI response. " ++
  lit "Tip: ensure the model outputs a single JSON object (no trailing commentary).\n\n" ++
  lit "Parse error: " ++ underlyingParseMsg candidate ++ lit "\n\n" ++
  lit "--- JSON candidate (start) ---\n" ++ candidate.take 800 ++
  lit "\n--- JSON candidate (end) ---\n" ++ takeLast 800 candidate ++ [nl]

/-- The `ProtoForgeParseError` thrown by `parseJsonOrThrow`: its message
and the attached raw response and candidate. -/
structure ParseFail where
  message : Str
  rawResponse : Str
  jsonCandidate : Str

/-- The `ProtoForgeValidationError` thrown by
`parseAndValidateAIResponse`: its message and the attached raw response
and best-effort parsed object. -/
structure ValidationFail where
  message : Str
  rawResponse : Str
  parsed : Json

/-- The two fatal errors of the parse-and-validate stage. -/
inductive PFFail where
  | parse (e : ParseFail)
  | invalid (e : ValidationFail)

/-- The caller-visible message of a pipeline error. -/
def pfMessage : PFFail → Str
  | .parse e => e.message
  | .invalid e => e.message

/-- lib/core/aiResponse.js `parseJsonOrThrow`. -/
def parseJsonOrThrow (jsonStr : Str) (sourceText : Str) : Except ParseFail Json :=
  match jsonParse jsonStr with
  | some v => .ok v
  | none =>
    .error { message := parseErrorMessage jsonStr
             rawResponse := sourceText
             jsonCandidate := jsonStr }

/-- The fixed part of the validation-error message (the field-level zod
issue lines, produced by the validation library, are elided as no claim
constrains them). -/
def validationMessage : Str :=
  lit "AI response JSON parsed but did not match expected structure.\n" ++
  lit "This usually means the model returned the wrong shape or missing fields.\n\n" ++
  lit "Tip: Try re-running with a stricter model or ask the provider to output JSON only."

/-- The soft warning pushed when no snippet array with entries is found. -/
def warnNoSnippets : Str :=
  lit "No codeSnippets/files array found; output may be documentation-only."

/-- lib/core/aiResponse.js `parseAndValidateAIResponse`: extract, decode
or fail with a parse error, validate or fail with a validation error,
and collect the soft warnings.  The zod schema performs no transforms,
so the validated value is the decoded object itself. -/
def parseAndValidateAIResponse (text : Str) : Except PFFail (Json × List Str) :=
  let candidate := extractJsonCandidate text
  match parseJsonOrThrow candidate text with
  | .error e => .error (.parse e)
  | .ok obj =>
    if checkPrototype obj then
      let snippets := jsOrElse (jsOr (jget obj "codeSnippets") (jget obj "files")) (.arr [])
      let warnings :=
        match snippets with
        | .arr (_ :: _) => ([] : List Str)
        | _ => [warnNoSnippets]
      .ok (obj, warnings)
    else
      .error (.invalid { message := validationMessage, rawResponse := text, parsed := obj })

/-- The return value of `generateProjectFromResponse`. -/
structure GenResult where
  success : Bool
  files : List SnippetFile
  parsed : Json

/-- The content of prototype.warnings.txt. -/
def warningsText (ws : List Str) : Str :=
  joinWith [nl] (ws.map (fun w => lit "- " ++ w)) ++ [nl]

/-- lib/core/output.js `generateProjectFromResponse`: the writes the
run performs, in program order, paired with its outcome.  The raw
response is persisted first; on a parse or validation failure the
error text (and, for a validation failure, the best-effort decoded
object) is persisted before the error propagates; on success the
validated spec, the warnings and all materialized artifacts are
written.  The `mkdir` calls of `createProjectStructure` create the
code/, schematics/ and docs/ skeleton and write no file. -/
def generateProjectFromResponse (response : Str) (projectDir : List Str)
    (originalDescription : Str) : List FileWrite × Except PFFail GenResult :=
  let rawWrite : FileWrite := (projectDir ++ [lit "prototype.raw.txt"], response)
  match parseAndValidateAIResponse response with
  | .error e =>
    let errWrite : FileWrite := (projectDir ++ [lit "prototype.parse-error.txt"], pfMessage e)
    let bestEffort : List FileWrite :=
      match e with
      | .invalid v => [(projectDir ++ [lit "prototype.json"], jsonStringify v.parsed)]
      | .parse _ => []
    (rawWrite :: errWrite :: bestEffort, .error e)
  | .ok (parsed, warnings) =>
    let snippetFiles := writeCodeSnippets projectDir parsed
    let writes :=
      rawWrite ::
      (projectDir ++ [lit "prototype.json"], jsonStringify parsed) ::
      (if warnings.isEmpty then []
       else [(projectDir ++ [lit "prototype.warnings.txt"], warningsText warnings)]) ++
      (snippetFiles.map (fun f => (f.path, f.content))) ++
      writeDocumentation projectDir parsed originalDescription ++
      generateDiagrams projectDir parsed ++
      generateBOM projectDir parsed ++
      writeReport projectDir parsed originalDescription
    (writes, .ok { success := true, files := snippetFiles, parsed := parsed })

/-- Whether a path segment survives normalization unchanged: not empty,
not a dot, not a dot-dot. -/
def cleanSeg (s : Str) : Bool :=
  s ≠ [] && s ≠ lit "." && s ≠ lit ".."

theorem head_of_dropWhile {α} (p : α → Bool) :
    ∀ (l : List α) (c : α), (l.dropWhile p).head? = some c → p c = false := by
  intro l
  induction l with
  | nil => intro c h; simp [List.dropWhile] at h
  | cons x xs ih =>
    intro c h
    rw [List.dropWhile_cons] at h
    by_cases hx : p x
    · exact ih c (by simpa [hx] using h)
    · simp [hx] at h
      rw [← h]
      simpa using hx

theorem dropWhile_eq_self_of_head {α} (p : α → Bool) (l : List α)
    (h : ∀ c, l.head? = some c → p c = false) : l.dropWhile p = l := by
  cases l with
  | nil => rfl
  | cons x xs =>
    rw [List.dropWhile_cons, if_neg]
    simp [h x rfl]

theorem jsTrim_eq_self {l : Str}
    (h1 : ∀ c, l.head? = some c → isJsWs c = false)
    (h2 : ∀ c, l.getLast? = some c → isJsWs c = false) : jsTrim l = l := by
  unfold jsTrim
  rw [dropWhile_eq_self_of_head _ _ h1]
  rw [dropWhile_eq_self_of_head _ _ (fun c hc => h2 c (by rwa [List.head?_reverse] at hc))]
  exact List.reverse_reverse l

theorem jsTrim_reverse_prefix (l : Str) :
    ((l.dropWhile isJsWs).reverse.dropWhile isJsWs).reverse <+: l.dropWhile isJsWs := by
  obtain ⟨t, ht⟩ := List.dropWhile_suffix (l := (l.dropWhile isJsWs).reverse) isJsWs
  refine ⟨t.reverse, ?_⟩
  have := congrArg List.reverse ht
  simpa [List.reverse_append] using this

theorem head_jsTrim_not_ws (l : Str) :
    ∀ c, (jsTrim l).head? = some c → isJsWs c = false := by
  intro c h
  unfold jsTrim at h
  obtain ⟨t, ht⟩ := jsTrim_reverse_prefix l
  set y := ((l.dropWhile isJsWs).reverse.dropWhile isJsWs).reverse with hy
  cases hcy : y with
  | nil => rw [hcy] at h; simp at h
  | cons a as =>
    have hhead : (l.dropWhile isJsWs).head? = some a := by
      rw [← ht, hcy]
      simp
    have hac : a = c := by
      rw [hcy] at h
      simpa using h
    rw [← hac]
    exact head_of_dropWhile isJsWs l a hhead

theorem getLast_jsTrim_not_ws (l : Str) :
    ∀ c, (jsTrim l).getLast? = some c → isJsWs c = false := by
  intro c h
  unfold jsTrim at h
  rw [← List.head?_reverse, List.reverse_reverse] at h
  exact head_of_dropWhile isJsWs _ c h

theorem jsTrim_idem (l : Str) : jsTrim (jsTrim l) = jsTrim l :=
  jsTrim_eq_self (head_jsTrim_not_ws l) (getLast_jsTrim_not_ws l)

theorem mem_jsTrim {c : Char} {l : Str} (h : c ∈ jsTrim l) : c ∈ l := by
  unfold jsTrim at h
  rw [List.mem_reverse] at h
  have h1 : c ∈ (l.dropWhile isJsWs).reverse :=
    (List.dropWhile_suffix isJsWs).mem h
  rw [List.mem_reverse] at h1
  exact (List.dropWhile_suffix isJsWs).mem h1

theorem indexOfChar_some_lt (c : Char) :
    ∀ (l : Str) (i : Nat), indexOfChar c l = some i → i < l.length := by
  intro l
  induction l with
  | nil => intro i h; simp [indexOfChar] at h
  | cons x xs ih =>
    intro i h
    rw [indexOfChar] at h
    by_cases hx : x = c
    · simp [hx] at h
      rw [← h]
      simp
    · simp only [hx, if_false, Option.map_eq_some'] at h
      obtain ⟨j, hj, rfl⟩ := h
      have := ih j hj
      simp
      omega

theorem indexOfChar_some_get (c : Char) :
    ∀ (l : Str) (i : Nat), indexOfChar c l = some i → l[i]? = some c := by
  intro l
  induction l with
  | nil => intro i h; simp [indexOfChar] at h
  | cons x xs ih =>
    intro i h
    rw [indexOfChar] at h
    by_cases hx : x = c
    · simp [hx] at h
      simp [← h, hx]
    · simp only [hx, if_false, Option.map_eq_some'] at h
      obtain ⟨j, hj, rfl⟩ := h
      simpa using ih j hj

theorem indexOfChar_none_of_not_mem (c : Char) :
    ∀ (l : Str), c ∉ l → indexOfChar c l = none := by
  intro l
  induction l with
  | nil => intro _; rfl
  | cons x xs ih =>
    intro h
    rw [indexOfChar]
    have hx : ¬ x = c := fun he => h (he ▸ List.mem_cons_self x xs)
    have hm : c ∉ xs := fun hc => h (List.mem_cons_of_mem x hc)
    simp [hx, ih hm]

theorem lastIndexOfChar_some (c : Char) (l : Str) (e : Nat)
    (h : lastIndexOfChar c l = some e) : e < l.length ∧ l[e]? = some c := by
  unfold lastIndexOfChar at h
  rw [Option.map_eq_some'] at h
  obtain ⟨j, hj, rfl⟩ := h
  have hjl : j < l.length := by
    have := indexOfChar_some_lt c l.reverse j hj
    simpa using this
  have hget : l.reverse[j]? = some c := indexOfChar_some_get c l.reverse j hj
  rw [List.getElem?_reverse (by simpa using hjl)] at hget
  constructor
  · omega
  · exact hget

theorem slice_head (l : Str) (s e : Nat) (hse : s ≤ e) (_he : e < l.length) :
    (sliceStr l s (e + 1)).head? = l[s]? := by
  unfold sliceStr
  rw [List.head?_eq_getElem?, List.getElem?_drop, List.getElem?_take]
  have hs : s + 0 < e + 1 := by omega
  rw [if_pos hs]
  simp

theorem slice_getLast (l : Str) (s e : Nat) (hse : s ≤ e) (he : e < l.length) :
    (sliceStr l s (e + 1)).getLast? = l[e]? := by
  unfold sliceStr
  have hlen : ((l.take (e + 1)).drop s).length = e + 1 - s := by
    rw [List.length_drop, List.length_take]
    omega
  rw [List.getLast?_eq_getElem?, hlen, List.getElem?_drop, List.getElem?_take]
  have h1 : s + (e + 1 - s - 1) = e := by omega
  rw [h1]
  have h2 : e < e + 1 := by omega
  rw [if_pos h2]

theorem normStep_clean (acc : List Str) (s : Str) (h : cleanSeg s = true) :
    normStep acc s = acc ++ [s] := by
  unfold cleanSeg at h
  simp only [Bool.and_eq_true, decide_eq_true_eq, ne_eq] at h
  unfold normStep
  rw [if_neg (by tauto), if_neg (by tauto)]

theorem foldl_normStep_clean :
    ∀ (dir : List Str) (acc : List Str), (∀ s ∈ dir, cleanSeg s = true) →
      List.foldl normStep acc dir = acc ++ dir := by
  intro dir
  induction dir with
  | nil => intro acc _; simp
  | cons s rest ih =>
    intro acc h
    rw [List.foldl_cons, normStep_clean acc s (h s (List.mem_cons_self s rest))]
    rw [ih (acc ++ [s]) (fun t ht => h t (List.mem_cons_of_mem s ht))]
    simp

theorem foldl_normStep_prefix :
    ∀ (t : List Str) (acc : List Str), (∀ s ∈ t, s ≠ lit "..") →
      acc <+: List.foldl normStep acc t := by
  intro t
  induction t with
  | nil => intro acc _; simp
  | cons s rest ih =>
    intro acc h
    rw [List.foldl_cons]
    have hs : s ≠ lit ".." := h s (List.mem_cons_self s rest)
    have hrest : ∀ u ∈ rest, u ≠ lit ".." := fun u hu => h u (List.mem_cons_of_mem s hu)
    unfold normStep
    by_cases h0 : s = [] ∨ s = lit "."
    · rw [if_pos h0]
      exact ih acc hrest
    · rw [if_neg h0, if_neg hs]
      exact (List.prefix_append acc [s]).trans (ih (acc ++ [s]) hrest)

theorem normSegs_prefix_of_clean (dir t : List Str)
    (hdir : ∀ s ∈ dir, cleanSeg s = true) (ht : ∀ s ∈ t, s ≠ lit "..") :
    dir <+: normSegs (dir ++ t) := by
  unfold normSegs
  rw [List.foldl_append, foldl_normStep_clean dir [] hdir]
  exact foldl_normStep_prefix t dir ht

theorem writeSnippetsGo_mem (dir : List Str) :
    ∀ (l : List Json) (f : SnippetFile), f ∈ writeSnippetsGo dir l →
      ∃ sn ∈ l, snippetKeep sn = true ∧ f = mkSnippetFile dir sn := by
  intro l
  induction l with
  | nil => intro f h; simp [writeSnippetsGo] at h
  | cons sn rest ih =>
    intro f h
    rw [writeSnippetsGo] at h
    by_cases hk : snippetKeep sn
    · rw [if_pos hk] at h
      rcases List.mem_cons.1 h with h1 | h1
      · exact ⟨sn, List.mem_cons_self sn rest, hk, h1⟩
      · obtain ⟨sn', hm, hk', hf⟩ := ih f h1
        exact ⟨sn', List.mem_cons_of_mem sn hm, hk', hf⟩
    · rw [if_neg hk] at h
      obtain ⟨sn', hm, hk', hf⟩ := ih f h
      exact ⟨sn', List.mem_cons_of_mem sn hm, hk', hf⟩

/-- A target directory for the concrete snippet scenarios. -/
def c1Root : List Str := [lit "home", lit "proj"]

/-- A validated spec whose only snippet names a parent-directory path. -/
def c1EvilSpec : Json :=
  Json.obj [(lit "codeSnippets", Json.arr [Json.obj
    [(lit "fileName", Json.str (lit "../evil.txt")),
     (lit "code", Json.str (lit "x"))]])]

/-- A validated spec with one nested-path snippet and one bare-name
snippet. -/
def c1GoodSn : Json :=
  Json.obj [(lit "fileName", Json.str (lit "src/main.c")),
            (lit "code", Json.str (lit "int main;"))]

/-- The spec wrapping `c1GoodSn`. -/
def c1GoodSpec : Json := Json.obj [(lit "codeSnippets", Json.arr [c1GoodSn])]

/-- The file written for `c1GoodSn` under `c1Root`. -/
def c1GoodFile : SnippetFile := mkSnippetFile c1Root c1GoodSn

/-- C1 counterexample: the claim says a snippet name whose resolved path
escapes the project root is rejected, but `writeCodeSnippets` performs
no such check: the validated spec `c1EvilSpec` materializes its snippet
at home/evil.txt, which is not under the project root home/proj. -/
theorem c1_traversal_counterexample :
    checkPrototype c1EvilSpec = true ∧
    (writeCodeSnippets c1Root c1EvilSpec).map SnippetFile.path =
      [[lit "home", lit "evil.txt"]] ∧
    ¬ (c1Root <+: [lit "home", lit "evil.txt"]) := by decide

/-- C1 (amended): a snippet name holding a path separator is written at
`path.join(projectDir, name)` with no traversal rejection, so the file
stays confined under the project root only when the name resolves no
`..` segment (a `..` segment can escape, as the counterexample shows);
a bare name is placed under code/. -/
theorem c1_snippet_path_confinement (dir : List Str) (parsed : Json) :
    (∀ f ∈ writeCodeSnippets dir parsed,
      f.path = normSegs (dir ++ splitSlash f.name) ∧
      ((∀ s ∈ dir, cleanSeg s = true) → (∀ s ∈ splitSlash f.name, s ≠ lit "..") →
        dir <+: f.path)) ∧
    (∀ sn, snippetKeep sn = true →
      (jsToStrOpt (snippetRawName sn)).contains '/' = false →
      (mkSnippetFile dir sn).name = pathJoin2 (lit "code") (jsToStrOpt (snippetRawName sn))) := by
  constructor
  · intro f hf
    obtain ⟨sn, _, hk, rfl⟩ := writeSnippetsGo_mem dir (snippetList parsed) f hf
    refine ⟨rfl, ?_⟩
    intro hdir hname
    exact normSegs_prefix_of_clean dir _ hdir hname
  · intro sn _ hsep
    simp only [mkSnippetFile, hsep, Bool.false_eq_true, if_false]

/-- C1 witness: the nested snippet src/main.c of `c1GoodSpec` stays
confined under the project root. -/
theorem c1_snippet_path_confinement_witness : c1Root <+: c1GoodFile.path :=
  ((c1_snippet_path_confinement c1Root c1GoodSpec).1 c1GoodFile (by decide)).2
    (by decide) (by decide)

/-- Whether the fenced branch of `extractJsonCandidate` is not taken:
no regex match, or an empty captured group. -/
def fenceBranchMiss (text : Str) : Bool :=
  match fenceScan text with
  | some seg => (jsTrim seg).isEmpty
  | none => true

/-- A fenced response whose fence holds no JSON at all. -/
def c2FenceText : Str := lit "```\nhello\n```"

/-- A plain response with an embedded brace pair. -/
def c2BraceText : Str := lit "abc \x7b1\x7d def"

/-- C2 counterexample: extraction succeeds on `c2FenceText` (a fenced
block is found and its captured group is non-empty), yet the returned
candidate is the word hello, whose first non-whitespace character is
not an opening brace. -/
theorem c2_fence_counterexample :
    fenceScan c2FenceText = some (lit "\nhello\n") ∧
    extractJsonCandidate c2FenceText = lit "hello" ∧
    (jsTrim (extractJsonCandidate c2FenceText)).head? = some 'h' ∧
    'h' ≠ obrace := by decide

/-- C2 (amended): when the candidate is produced by the brace-pair
fallback (no fenced block with a non-empty group), its first character
is the opening brace and its last the closing brace; a candidate from a
fenced block is the fence's trimmed content, which need not start with
a brace. -/
theorem c2_brace_candidate_shape (text : Str) (s e : Nat)
    (hf : fenceBranchMiss text = true)
    (hs : indexOfChar obrace (jsTrim text) = some s)
    (he : lastIndexOfChar cbrace (jsTrim text) = some e)
    (hse : s < e) :
    (extractJsonCandidate text).head? = some obrace ∧
    (extractJsonCandidate text).getLast? = some cbrace := by
  have hext : extractJsonCandidate text = braceFallback text := by
    unfold extractJsonCandidate
    unfold fenceBranchMiss at hf
    cases hfs : fenceScan text with
    | none => rfl
    | some seg =>
      rw [hfs] at hf
      simp only [List.isEmpty_iff] at hf
      show (if jsTrim seg = [] then braceFallback text else jsTrim (jsTrim seg)) =
        braceFallback text
      rw [if_pos hf]
  have hb : braceFallback text = jsTrim (sliceStr (jsTrim text) s (e + 1)) := by
    simp only [braceFallback]
    rw [hs, he]
    show (if s < e then jsTrim (sliceStr (jsTrim text) s (e + 1)) else jsTrim text) =
      jsTrim (sliceStr (jsTrim text) s (e + 1))
    rw [if_pos hse]
  obtain ⟨helt, hegete⟩ := lastIndexOfChar_some cbrace (jsTrim text) e he
  have hsget : (jsTrim text)[s]? = some obrace := indexOfChar_some_get obrace (jsTrim text) s hs
  have hhead : (sliceStr (jsTrim text) s (e + 1)).head? = some obrace := by
    rw [slice_head _ s e (le_of_lt hse) helt]
    exact hsget
  have hlast : (sliceStr (jsTrim text) s (e + 1)).getLast? = some cbrace := by
    rw [slice_getLast _ s e (le_of_lt hse) helt]
    exact hegete
  have htrim : jsTrim (sliceStr (jsTrim text) s (e + 1)) = sliceStr (jsTrim text) s (e + 1) := by
    apply jsTrim_eq_self
    · intro c hc
      rw [hhead] at hc
      simp at hc
      rw [← hc]
      decide
    · intro c hc
      rw [hlast] at hc
      simp at hc
      rw [← hc]
      decide
  rw [hext, hb, htrim]
  exact ⟨hhead, hlast⟩

/-- C2 witness: on `c2BraceText` the fallback candidate starts with the
opening brace and ends with the closing brace. -/
theorem c2_brace_candidate_shape_witness :
    (extractJsonCandidate c2BraceText).head? = some obrace ∧
    (extractJsonCandidate c2BraceText).getLast? = some cbrace :=
  c2_brace_candidate_shape c2BraceText 4 6 (by decide) (by decide) (by decide) (by decide)

/-- C3 counterexample: the input 123 has no brace and no fence, and
extraction returns it unchanged, yet decoding it succeeds (123 is a
valid JSON number), contradicting the claim that decoding always fails
on such inputs. -/
theorem c3_counterexample :
    obrace ∉ lit "123" ∧ cbrace ∉ lit "123" ∧
    fenceScan (lit "123") = none ∧
    extractJsonCandidate (lit "123") = lit "123" ∧
    (jsonParse (extractJsonCandidate (lit "123"))).isSome = true := by decide

/-- C3 (amended): for text with no brace and no fence, extraction
returns the trimmed input unchanged, and decoding that candidate fails
exactly when the trimmed text is not itself valid JSON (a brace-free
text can still be a valid JSON scalar or array). -/
theorem c3_no_brace_extraction (text : Str)
    (hf : fenceScan text = none)
    (ho : obrace ∉ text) (_hc : cbrace ∉ text) :
    extractJsonCandidate text = jsTrim text ∧
    (parseJsonOrThrow (extractJsonCandidate text) text).isOk =
      (jsonParse (jsTrim text)).isSome := by
  have hidx : indexOfChar obrace (jsTrim text) = none :=
    indexOfChar_none_of_not_mem obrace (jsTrim text) (fun hm => ho (mem_jsTrim hm))
  have h1 : extractJsonCandidate text = jsTrim text := by
    simp only [extractJsonCandidate, hf, braceFallback, hidx]
  refine ⟨h1, ?_⟩
  rw [h1]
  cases hm : jsonParse (jsTrim text) with
  | none => simp [parseJsonOrThrow, hm, Except.isOk, Except.toBool]
  | some v => simp [parseJsonOrThrow, hm, Except.isOk, Except.toBool]

/-- C3 witness: a brace-free, fence-free sentence extracts to itself
trimmed, and decoding fails on it. -/
theorem c3_no_brace_extraction_witness :
    extractJsonCandidate (lit "hello world") = jsTrim (lit "hello world") ∧
    (parseJsonOrThrow (extractJsonCandidate (lit "hello world")) (lit "hello world")).isOk =
      (jsonParse (jsTrim (lit "hello world"))).isSome :=
  c3_no_brace_extraction (lit "hello world") (by decide) (by decide) (by decide)

/-- A response with two fenced JSON blocks. -/
def c4TwoFence : Str :=
  lit "pre ```json\n\x7b\"a\": 1\x7d\n``` mid ```json\n\x7b\"b\": 2\x7d\n``` post"

/-- A response with one fenced JSON block amid commentary. -/
def c4Simple : Str := lit "ok ```json\n\x7b\"a\": 1\x7d\n``` thanks"

/-- C4: whenever the first fenced block's trimmed content is valid
JSON, extraction returns exactly that content (trimming included); with
two fenced blocks only the first is used. -/
theorem c4_fenced_extraction :
    (∀ text seg, fenceScan text = some seg →
      (jsonParse (jsTrim seg)).isSome = true →
      extractJsonCandidate text = jsTrim seg) ∧
    extractJsonCandidate c4TwoFence = lit "\x7b\"a\": 1\x7d" := by
  constructor
  · intro text seg hf hj
    unfold extractJsonCandidate
    rw [hf]
    have hne : ¬ (jsTrim seg = []) := by
      intro h0
      rw [h0] at hj
      exact absurd hj (by decide)
    show (if jsTrim seg = [] then braceFallback text else jsTrim (jsTrim seg)) = jsTrim seg
    rw [if_neg hne]
    exact jsTrim_idem seg
  · decide

/-- C4 witness: the fenced JSON of `c4Simple` is extracted verbatim up
to trimming. -/
theorem c4_fenced_extraction_witness :
    extractJsonCandidate c4Simple = jsTrim (lit "\n\x7b\"a\": 1\x7d\n") :=
  c4_fenced_extraction.1 c4Simple (lit "\n\x7b\"a\": 1\x7d\n") (by decide) (by decide)

theorem jsNullishOr_of_nullish (a : Option Json) (b : Json)
    (h : isNullish a = true) : jsNullishOr a b = b := by
  cases a with
  | none => rfl
  | some v => cases v <;> first | rfl | simp [isNullish] at h

/-- The concrete bill-of-materials items of the CSV scenario: one item
with a comma-bearing part number, one with no quantity at all. -/
def c5Items : List Json :=
  [Json.obj [(lit "partNumber", Json.str (lit "R1,10k")), (lit "quantity", Json.num (lit "2"))],
   Json.obj [(lit "partNumber", Json.str (lit "C1"))]]

/-- The spec carrying `c5Items` as its `bom`. -/
def c5Spec : Json := Json.obj [(lit "bom", Json.arr c5Items)]

/-- C5: with a non-empty resolved item list, `generateBOM` writes
exactly bom.csv and docs/bom.md, the CSV starts with the header row, an
absent (or null) quantity renders as 1, a field holding a comma, quote
or newline is escaped by wrapping in quotes and doubling embedded
quotes (other fields pass through), and the part number R1,10k is
emitted quoted; an empty resolved list writes neither file. -/
theorem c5_bom_csv (dir : List Str) (parsed : Json) :
    ((resolvedBomItems parsed).isEmpty = true → generateBOM dir parsed = []) ∧
    ((resolvedBomItems parsed).isEmpty = false →
      generateBOM dir parsed =
        [(dir ++ [lit "bom.csv"], bomCsvContent (resolvedBomItems parsed)),
         (dir ++ [lit "docs", lit "bom.md"], bomMdContent (resolvedBomItems parsed))]) ∧
    (∀ i is, bomCsvContent (i :: is) =
      bomHeader ++ [nl] ++ joinWith [nl] ((i :: is).map bomRow) ++ [nl]) ∧
    (∀ item, isNullish (jget item "quantity") = true →
      bomRowFields item =
        [csvEscape (jsToString (jsOrElse (jget item "partNumber") (.str []))),
         csvEscape (jsToString (jsOrElse (jget item "description")
           (jsOrElse (jget item "name") (.str [])))),
         lit "1",
         csvEscape (jsToString (jsNullishOr (jget item "unitPrice") (.str []))),
         csvEscape (jsToString (jsOrElse (jget item "link") (.str [])))]) ∧
    (∀ v : Str,
      ((v.contains ',' || v.contains '"' || v.contains nl) = true →
        csvEscape v = '"' :: (v.flatMap (fun c => if c = '"' then ['"', '"'] else [c])) ++ ['"']) ∧
      ((v.contains ',' || v.contains '"' || v.contains nl) = false → csvEscape v = v)) ∧
    csvEscape (lit "R1,10k") = lit "\"R1,10k\"" := by
  refine ⟨?_, ?_, ?_, ?_, ?_, by decide⟩
  · intro h
    simp [generateBOM, h]
  · intro h
    simp [generateBOM, h]
  · intro i is
    simp [bomCsvContent, joinWith]
  · intro item h
    simp only [bomRowFields, jsNullishOr_of_nullish _ _ h]
    rw [show csvEscape (jsToString (Json.num (lit "1"))) = lit "1" from by decide]
  · intro v
    constructor
    · intro h
      simp only [csvEscape, h, if_true]
    · intro h
      simp only [csvEscape, h, Bool.false_eq_true, if_false]

/-- C5 witness: the concrete scenario produces the two BOM files, and
the quantity-free item renders its quantity as 1. -/
theorem c5_bom_csv_witness :
    generateBOM [lit "p"] c5Spec =
      [([lit "p", lit "bom.csv"], bomCsvContent (resolvedBomItems c5Spec)),
       ([lit "p", lit "docs", lit "bom.md"], bomMdContent (resolvedBomItems c5Spec))] ∧
    bomRowFields (Json.obj [(lit "partNumber", Json.str (lit "C1"))]) =
      [csvEscape (jsToString (jsOrElse (jget (Json.obj [(lit "partNumber", Json.str (lit "C1"))]) "partNumber") (.str []))),
       csvEscape (jsToString (jsOrElse (jget (Json.obj [(lit "partNumber", Json.str (lit "C1"))]) "description")
         (jsOrElse (jget (Json.obj [(lit "partNumber", Json.str (lit "C1"))]) "name") (.str [])))),
       lit "1",
       csvEscape (jsToString (jsNullishOr (jget (Json.obj [(lit "partNumber", Json.str (lit "C1"))]) "unitPrice") (.str []))),
       csvEscape (jsToString (jsOrElse (jget (Json.obj [(lit "partNumber", Json.str (lit "C1"))]) "link") (.str [])))] :=
  ⟨(c5_bom_csv [lit "p"] c5Spec).2.1 (by decide),
   (c5_bom_csv [lit "p"] c5Spec).2.2.2.1 (Json.obj [(lit "partNumber", Json.str (lit "C1"))]) (by decide)⟩

/-- A concrete line item for the synonym scenario. -/
def c6Item : Json := Json.obj [(lit "partNumber", Json.str (lit "ESP32"))]

/-- C6: a spec giving its items as `bom` and a spec giving the same
items as `billOfMaterials.components` (all other members equal, with
neither synonym shadowed) produce identical `generateBOM` output, so
identical bom.csv contents. -/
theorem c6_bom_synonym (dir : List Str) (items : List Json) (rest : List (Str × Json))
    (h1 : (lookupField rest (lit "bom")).isNone = true)
    (h2 : (lookupField rest (lit "billOfMaterials")).isNone = true) :
    generateBOM dir (Json.obj ((lit "bom", Json.arr items) :: rest)) =
    generateBOM dir (Json.obj ((lit "billOfMaterials",
      Json.obj [(lit "components", Json.arr items)]) :: rest)) := by
  rw [Option.isNone_iff_eq_none] at h1 h2
  have e1 : resolvedBomItems (Json.obj ((lit "bom", Json.arr items) :: rest)) = items := by
    simp only [lit] at h1
    simp only [resolvedBomItems, jget, lookupField, lit]
    rw [h1]
    simp [jsOr, truthyOpt, jsTruthy]
  have e2 : resolvedBomItems (Json.obj ((lit "billOfMaterials",
      Json.obj [(lit "components", Json.arr items)]) :: rest)) = items := by
    simp only [lit] at h1 h2
    simp only [resolvedBomItems, jget, lookupField, lit]
    rw [h1, h2]
    simp only [jsOr, truthyOpt, jsTruthy, jgetChain]
    simp only [Option.bind, jget, lookupField, lit, toArr]
    rfl
  simp only [generateBOM, e1, e2]

/-- C6 witness: the two synonym spellings of a one-item list produce
the same BOM writes. -/
theorem c6_bom_synonym_witness :
    generateBOM [lit "p"] (Json.obj [(lit "bom", Json.arr [c6Item])]) =
    generateBOM [lit "p"] (Json.obj [(lit "billOfMaterials",
      Json.obj [(lit "components", Json.arr [c6Item])])]) :=
  c6_bom_synonym [lit "p"] [c6Item] [] (by decide) (by decide)

/-- C7: a build guide given as a step mapping is rendered with its
entries sorted by the numeric-aware key order whatever the input order
(the sort is a permutation and sorted under the comparator); in the
concrete scenario step1 is rendered before step2 despite the input
order, both input orders render identically, and the numeric collation
places step2 before step10. -/
theorem c7_build_guide_order :
    (∀ l : List (Str × Json),
      List.Sorted bgLe (sortGuideEntries l) ∧ (sortGuideEntries l).Perm l) ∧
    formatBuildGuide (Json.obj [(lit "step2", Json.str (lit "Wire sensor")),
      (lit "step1", Json.str (lit "Gather parts"))]) =
      lit "## step1\nGather parts\n\n## step2\nWire sensor" ∧
    formatBuildGuide (Json.obj [(lit "step2", Json.str (lit "Wire sensor")),
      (lit "step1", Json.str (lit "Gather parts"))]) =
    formatBuildGuide (Json.obj [(lit "step1", Json.str (lit "Gather parts")),
      (lit "step2", Json.str (lit "Wire sensor"))]) ∧
    (sortGuideEntries [(lit "step10", Json.null), (lit "step2", Json.null)]).map Prod.fst =
      [lit "step2", lit "step10"] := by
  refine ⟨fun l => ⟨List.sorted_insertionSort bgLe l, List.perm_insertionSort bgLe l⟩,
    by decide, by decide, by decide⟩

theorem infix_of_append_right {α} {x l : List α} (a : List α) (h : x <:+: l) :
    x <:+: a ++ l := by
  obtain ⟨s, t, hst⟩ := h
  exact ⟨a ++ s, t, by rw [← hst]; simp⟩

/-- C8: whenever the extracted candidate is not valid JSON, the run
returns the parse error after having written exactly prototype.raw.txt
(holding the response) and prototype.parse-error.txt (holding the error
message); the message contains the fixed Failed-to-parse heading and
the first and last 800 characters of the candidate, and the error
object carries the original raw text and the candidate. -/
theorem c8_parse_failure_artifacts (response : Str) (dir : List Str) (desc : Str)
    (h : (jsonParse (extractJsonCandidate response)).isNone = true) :
    generateProjectFromResponse response dir desc =
      ([(dir ++ [lit "prototype.raw.txt"], response),
        (dir ++ [lit "prototype.parse-error.txt"],
          parseErrorMessage (extractJsonCandidate response))],
       .error (.parse { message := parseErrorMessage (extractJsonCandidate response)
                        rawResponse := response
                        jsonCandidate := extractJsonCandidate response })) ∧
    lit "Failed to parse JSON" <:+: parseErrorMessage (extractJsonCandidate response) ∧
    (extractJsonCandidate response).take 800 <:+:
      parseErrorMessage (extractJsonCandidate response) ∧
    takeLast 800 (extractJsonCandidate response) <:+:
      parseErrorMessage (extractJsonCandidate response) := by
  have hp : jsonParse (extractJsonCandidate response) = none :=
    Option.isNone_iff_eq_none.mp h
  refine ⟨?_, ?_, ?_, ?_⟩
  · simp only [generateProjectFromResponse, parseAndValidateAIResponse, parseJsonOrThrow,
      hp, pfMessage]
  · have h1 : lit "Failed to parse JSON from AI response. " <+:
        parseErrorMessage (extractJsonCandidate response) := ⟨_, rfl⟩
    have h2 : lit "Failed to parse JSON" <+:
        lit "Failed to parse JSON from AI response. " := by decide
    exact (h2.trans h1).isInfix
  · exact ⟨lit "Failed to parse JSON from AI response. " ++
      lit "Tip: ensure the model outputs a single JSON object (no trailing commentary).\n\n" ++
      lit "Parse error: " ++ underlyingParseMsg (extractJsonCandidate response) ++
      lit "\n\n" ++ lit "--- JSON candidate (start) ---\n",
      lit "\n--- JSON candidate (end) ---\n" ++ takeLast 800 (extractJsonCandidate response) ++ [nl],
      by simp [parseErrorMessage]⟩
  · exact ⟨lit "Failed to parse JSON from AI response. " ++
      lit "Tip: ensure the model outputs a single JSON object (no trailing commentary).\n\n" ++
      lit "Parse error: " ++ underlyingParseMsg (extractJsonCandidate response) ++
      lit "\n\n" ++ lit "--- JSON candidate (start) ---\n" ++
      (extractJsonCandidate response).take 800 ++ lit "\n--- JSON candidate (end) ---\n",
      [nl],
      by simp [parseErrorMessage]⟩

/-- C8 witness: the Scenario B input writes the raw text and the parse
error artifact and fails with the parse error. -/
theorem c8_parse_failure_artifacts_witness :
    generateProjectFromResponse (lit "no json here at all") [lit "out"] (lit "d") =
      ([([lit "out"] ++ [lit "prototype.raw.txt"], lit "no json here at all"),
        ([lit "out"] ++ [lit "prototype.parse-error.txt"],
          parseErrorMessage (extractJsonCandidate (lit "no json here at all")))],
       .error (.parse { message := parseErrorMessage (extractJsonCandidate (lit "no json here at all"))
                        rawResponse := lit "no json here at all"
                        jsonCandidate := extractJsonCandidate (lit "no json here at all") })) :=
  (c8_parse_failure_artifacts (lit "no json here at all") [lit "out"] (lit "d") (by decide)).1

/-- C9: a spec in which only the overview member is populated
materializes with exactly the README, docs/overview.md,
docs/tech-stack.md and report.md writes: in particular neither bom.csv
nor docs/build-guide.md is produced, and the materializer is total on
such specs (no failure path exists in the translation). -/
theorem c9_overview_only (dir : List Str) (ov : Json) (desc : Str) :
    (materializeSpec dir (Json.obj [(lit "overview", ov)]) desc).map Prod.fst =
      [dir ++ [lit "README.md"], dir ++ [lit "docs", lit "overview.md"],
       dir ++ [lit "docs", lit "tech-stack.md"], dir ++ [lit "report.md"]] ∧
    generateBOM dir (Json.obj [(lit "overview", ov)]) = [] ∧
    ((writeDocumentation dir (Json.obj [(lit "overview", ov)]) desc).map Prod.fst =
      [dir ++ [lit "README.md"], dir ++ [lit "docs", lit "overview.md"],
       dir ++ [lit "docs", lit "tech-stack.md"]]) := by
  refine ⟨rfl, rfl, rfl⟩

/-- C10: a snippet yields a written file and manifest entry exactly
when both its name synonyms and its content synonyms resolve to a
truthy (non-empty) value: the write list is the kept-filtered snippet
list mapped to files, a name-only, empty-content or content-only
snippet is skipped silently, and a complete snippet produces its file. -/
theorem c10_snippet_written_iff (dir : List Str) (parsed : Json) :
    writeCodeSnippets dir parsed =
      ((snippetList parsed).filter snippetKeep).map (mkSnippetFile dir) ∧
    (∀ sn, snippetKeep sn = (truthyOpt (snippetRawName sn) && truthyOpt (snippetCode sn))) ∧
    writeSnippetsGo dir
      [Json.obj [(lit "fileName", Json.str (lit "a.txt"))],
       Json.obj [(lit "fileName", Json.str (lit "b.txt")), (lit "code", Json.str [])],
       Json.obj [(lit "code", Json.str (lit "x"))]] = [] ∧
    writeSnippetsGo dir [c1GoodSn] = [mkSnippetFile dir c1GoodSn] := by
  have hgen : ∀ l, writeSnippetsGo dir l = (l.filter snippetKeep).map (mkSnippetFile dir) := by
    intro l
    induction l with
    | nil => rfl
    | cons sn rest ih =>
      rw [writeSnippetsGo, List.filter_cons]
      by_cases hk : snippetKeep sn
      · simp only [hk, if_true, List.map_cons, ih]
      · simp only [hk, Bool.false_eq_true, if_false, ih]
  exact ⟨hgen (snippetList parsed), fun sn => rfl, rfl, rfl⟩
